import Mathlib

/-!
Shallow embedding of the personal-finance manager (src/personal.py): a
SQLite-backed ledger of income/expense transactions with per-category
budgets and monthly/yearly reports.  The store is modelled as lists of
rows in rowid (insertion) order; monetary amounts (SQLite REAL fed by
Python floats) are modelled as exact rationals; dates are the stored
TEXT strings.  Library behaviour the code relies on (CPython strptime,
SQLite strftime and ORDER BY) is modelled in dedicated definitions with
their own documentation.
-/

namespace Finance

/-! ### Characters and digit strings -/

/-- Numeric value of an ASCII digit character (0 for non-digits below 48). -/
def charVal (c : Char) : Nat := c.toNat - 48

/-- Value of a digit string, most significant first (models int() on digits). -/
def digitsVal (l : List Char) : Nat := l.foldl (fun n c => 10 * n + charVal c) 0

/-- All characters are ASCII digits. -/
def allDigits (l : List Char) : Bool := l.all fun c => c.isDigit

/-- Python str.strip() whitespace (ASCII range; the inputs here are ASCII). -/
def isSpace (c : Char) : Bool :=
  c = ' ' || c = '\t' || c = '\n' || c = '\r' || c.toNat = 11 || c.toNat = 12

/-- Models Python str.strip(): drop whitespace from both ends. -/
def pyStrip (s : String) : String :=
  String.mk (((s.data.dropWhile isSpace).reverse.dropWhile isSpace).reverse)

/-- Lowercase one character (ASCII; Python str.lower restricted to the
inputs this program compares, which are ASCII keywords). -/
def lowerChar (c : Char) : Char :=
  if 65 ≤ c.toNat ∧ c.toNat ≤ 90 then Char.ofNat (c.toNat + 32) else c

/-- Models Python str.lower(). -/
def pyLower (s : String) : String := String.mk (s.data.map lowerChar)

/-- Split a character list at every dash, keeping empty pieces
(models the fixed literal dashes of the date formats below). -/
def splitDash : List Char → List (List Char)
  | [] => [[]]
  | c :: cs =>
    if c = '-' then [] :: splitDash cs
    else
      match splitDash cs with
      | [] => [[c]]
      | p :: ps => (c :: p) :: ps

/-! ### Calendar arithmetic (models Python datetime.date validity) -/

/-- Leap-year test of the Gregorian calendar, as in Python datetime. -/
def isLeap (y : Nat) : Bool := y % 4 = 0 && (y % 100 ≠ 0 || y % 400 = 0)

/-- Days in a month, as in Python datetime. -/
def daysInMonth (y m : Nat) : Nat :=
  if m = 2 then (if isLeap y then 29 else 28)
  else if m = 4 || m = 6 || m = 9 || m = 11 then 30
  else 31

/-- Models CPython datetime.datetime.strptime(s, '%Y-%m-%d') succeeding:
the regex built by CPython _strptime matches %Y as exactly four digits and
%m / %d as one or two digits (so non-zero-padded forms are accepted), the
whole string must be consumed, and the resulting (year, month, day) must be
a valid datetime.date (year at least MINYEAR = 1, day within the month). -/
def dateValid (s : String) : Bool :=
  match splitDash s.data with
  | [ys, ms, ds] =>
    ys.length == 4 && allDigits ys &&
    (ms.length == 1 || ms.length == 2) && allDigits ms &&
    (ds.length == 1 || ds.length == 2) && allDigits ds &&
    (let y := digitsVal ys
     let m := digitsVal ms
     let d := digitsVal ds
     1 ≤ y && 1 ≤ m && m ≤ 12 && 1 ≤ d && d ≤ daysInMonth y m)
  | _ => false

/-- Year, month and day read off a date string of the accepted shape
(the specification's view of a stored date as a calendar date). -/
def dateYMD (s : String) : Option (Nat × Nat × Nat) :=
  if dateValid s then
    match splitDash s.data with
    | [ys, ms, ds] => some (digitsVal ys, digitsVal ms, digitsVal ds)
    | _ => none
  else none

/-- Strict calendar order on (year, month, day) triples. -/
def calLt (a b : Nat × Nat × Nat) : Prop :=
  a.1 < b.1 ∨ (a.1 = b.1 ∧ (a.2.1 < b.2.1 ∨ (a.2.1 = b.2.1 ∧ a.2.2 < b.2.2)))

/-! ### SQLite date-string behaviour -/

/-- Models SQLite accepting a TEXT value as a date of the form YYYY-MM-DD:
exactly ten characters, zero-padded four-digit year and two-digit month and
day, month in 1..12 and day in 1..31 (sqlite date.c parseYyyyMmDd).  A stored
date that strptime accepted in non-padded form, such as 2024-1-5, is NOT a
valid SQLite date.  Time-suffixed and julian forms are unreachable here. -/
def sqliteDateOk (s : String) : Bool :=
  match splitDash s.data with
  | [ys, ms, ds] =>
    ys.length == 4 && allDigits ys && ms.length == 2 && allDigits ms &&
    ds.length == 2 && allDigits ds &&
    (1 ≤ digitsVal ms && digitsVal ms ≤ 12 && 1 ≤ digitsVal ds && digitsVal ds ≤ 31)
  | _ => false

/-- Models SQLite strftime('%Y-%m', s): the year-month prefix when s parses
as a date, NULL (none) otherwise — so comparisons against it are false. -/
def sqliteYM (s : String) : Option String :=
  if sqliteDateOk s then some (String.mk (s.data.take 7)) else none

/-- Models SQLite strftime('%Y', s). -/
def sqliteY (s : String) : Option String :=
  if sqliteDateOk s then some (String.mk (s.data.take 4)) else none

/-- Byte order on strings (SQLite BINARY collation used by ORDER BY on the
TEXT date column): lexicographic comparison of code points. -/
def strLeChars : List Char → List Char → Bool
  | [], _ => true
  | _ :: _, [] => false
  | x :: xs, y :: ys =>
    if x.toNat < y.toNat then true
    else if y.toNat < x.toNat then false
    else strLeChars xs ys

/-- String comparison used when SQLite orders the date column. -/
def strLe (a b : String) : Bool := strLeChars a.data b.data

/-! ### The store -/

/-- A row of the transactions table. -/
structure Txn where
  id : Nat
  user : Nat
  kind : String
  category : String
  amount : Rat
  date : String
deriving Repr, DecidableEq

/-- A row of the budgets table. -/
structure Budget where
  id : Nat
  user : Nat
  category : String
  amount : Rat
deriving Repr, DecidableEq

/-- The database: rows in rowid order plus the AUTOINCREMENT counters. -/
structure Store where
  transactions : List Txn
  budgets : List Budget
  nextTxnId : Nat
  nextBudgetId : Nat
deriving Repr, DecidableEq

/-- Well-formed store: table scans return rowids in strictly increasing
order (AUTOINCREMENT never reuses ids) and every stored amount passed the
positivity validation. -/
def StoreWF (st : Store) : Prop :=
  st.transactions.Pairwise (fun a b => a.id < b.id) ∧
  ∀ t ∈ st.transactions, 0 < t.amount

instance (st : Store) : Decidable (StoreWF st) := by
  unfold StoreWF; infer_instance

/-! ### Budget engine -/

/-- Status derived by check_budget (the spec's EvaluateCategory): the code
prints an alert for Exceeded, a notice for AtLimit, and nothing for OK or
NoBudget; the comparison of the expense sum with the budget amount is exact
equality on the stored decimals. -/
inductive BudgetStatus where
  | ok
  | atLimit
  | exceeded
  | noBudget
deriving Repr, DecidableEq

/-- Sum of the amounts of a list of rows (SQLite SUM over the group; 0 when
the SUM is NULL because no row matched, via the code's or 0.0). -/
def sumAmounts (l : List Txn) : Rat := (l.map Txn.amount).sum

/-- check_budget(user, category) from src/personal.py: look up the budget
row for (user, category); with none, report NoBudget (the code just
returns); otherwise compare the total expense for (user, category) with the
budget amount. -/
def checkBudget (u : Nat) (category : String) (st : Store) : BudgetStatus :=
  match st.budgets.find? (fun b => b.user == u && b.category == category) with
  | none => .noBudget
  | some b =>
    let spent := sumAmounts (st.transactions.filter
      (fun t => t.user == u && t.kind == "expense" && t.category == category))
    if b.amount < spent then .exceeded
    else if spent == b.amount then .atLimit
    else .ok

/-- Outcome of set_budget. -/
inductive SetBudgetOutcome where
  | ok
  | invalidInput
deriving Repr, DecidableEq

/-- The DO UPDATE arm of the budget upsert: replace the amount of every row
with the conflicting (user, category) key. -/
def overwriteBudget (u : Nat) (cat : String) (amount : Rat) (l : List Budget) :
    List Budget :=
  l.map (fun b => if b.user == u && b.category == cat then { b with amount := amount } else b)

/-- set_budget(user) from src/personal.py: trims the category, rejects an
empty category and a non-positive amount, then INSERT ... ON CONFLICT
(user_id, category) DO UPDATE SET amount (upsert). -/
def setBudget (u : Nat) (categoryIn : String) (amount : Rat) (st : Store) :
    SetBudgetOutcome × Store :=
  if pyStrip categoryIn = "" then (.invalidInput, st)
  else if amount ≤ 0 then (.invalidInput, st)
  else if st.budgets.any (fun b => b.user == u && b.category == pyStrip categoryIn) then
    (.ok, { st with budgets := overwriteBudget u (pyStrip categoryIn) amount st.budgets })
  else
    (.ok, { st with
      budgets := st.budgets ++ [⟨st.nextBudgetId, u, pyStrip categoryIn, amount⟩],
      nextBudgetId := st.nextBudgetId + 1 })

/-! ### Ledger engine -/

/-- Outcome of add_transaction. -/
inductive AddOutcome where
  | added (id : Nat)
  | invalidInput
deriving Repr, DecidableEq

/-- add_transaction(user) from src/personal.py.  The interactive inputs are
parameters: kindIn is trimmed and lowercased and must be income or expense;
categoryIn is trimmed and must be non-empty; the amount (a parsed float,
modelled as an exact rational) must be positive; a blank date input is
replaced by today (date.today().isoformat(), supplied by the environment),
a non-blank one must satisfy strptime('%Y-%m-%d') and is stored verbatim.
On success the row is appended with the next AUTOINCREMENT id. -/
def addTransaction (u : Nat) (kindIn categoryIn : String) (amount : Rat)
    (dateIn today : String) (st : Store) : AddOutcome × Store :=
  if ¬ (pyLower (pyStrip kindIn) = "income" ∨ pyLower (pyStrip kindIn) = "expense") then
    (.invalidInput, st)
  else if pyStrip categoryIn = "" then (.invalidInput, st)
  else if amount ≤ 0 then (.invalidInput, st)
  else if pyStrip dateIn ≠ "" ∧ ¬ dateValid (pyStrip dateIn) then (.invalidInput, st)
  else
    (.added st.nextTxnId,
     { st with
       transactions := st.transactions ++
         [⟨st.nextTxnId, u, pyLower (pyStrip kindIn), pyStrip categoryIn, amount,
           if pyStrip dateIn = "" then today else pyStrip dateIn⟩],
       nextTxnId := st.nextTxnId + 1 })

/-- Stable insertion of a row into a date-descending list: the row goes
after every earlier row whose date is greater or equal (so rows with equal
dates keep their scan order).  Together with sortDesc this models the
observable behaviour of SQLite ORDER BY date DESC over a rowid-order scan. -/
def insertDesc (x : Txn) : List Txn → List Txn
  | [] => [x]
  | y :: ys => if strLe x.date y.date then y :: insertDesc x ys else x :: y :: ys

/-- Date-descending stable sort of the scanned rows. -/
def sortDesc (l : List Txn) : List Txn := l.foldl (fun acc x => insertDesc x acc) []

/-- view_transactions(user) from src/personal.py: SELECT the user's rows
ORDER BY date DESC (BINARY collation on the TEXT column).  An empty result
prints a message rather than failing; the returned list is empty. -/
def viewTransactions (u : Nat) (st : Store) : List Txn :=
  sortDesc (st.transactions.filter (fun t => t.user == u))

/-- The merged field values of an UPDATE: each blank input keeps the value
of the fetched row txn, a supplied one replaces it. -/
def mergeTxn (txn : Txn) (newType newCategory : String) (newAmount : Option Rat)
    (newDate : String) (t : Txn) : Txn :=
  { t with
    kind := if pyLower (pyStrip newType) = "" then txn.kind else pyLower (pyStrip newType),
    category := if pyStrip newCategory = "" then txn.category else pyStrip newCategory,
    amount := newAmount.getD txn.amount,
    date := if pyStrip newDate = "" then txn.date else pyStrip newDate }

/-- UPDATE ... WHERE id = ? AND user_id = ?: rewrite every matching row. -/
def overwriteTxn (txnId u : Nat) (f : Txn → Txn) (l : List Txn) : List Txn :=
  l.map (fun t => if t.id == txnId && t.user == u then f t else t)

/-- Outcome of update_transaction. -/
inductive UpdateOutcome where
  | updated
  | invalidInput
  | notFound
deriving Repr, DecidableEq

/-- update_transaction(user) from src/personal.py.  The row is fetched by
(id, user); a miss prints "Transaction not found".  Each field input left
blank keeps the current value: the new type is trimmed and lowercased and,
when non-blank, must be income or expense; the merged amount (blank input
modelled as none, a parsed float as some) must be positive; a non-blank new
date must satisfy strptime and replaces the old one verbatim.  The UPDATE
then overwrites every row matching (id, user) with the merged fields. -/
def updateTransaction (u txnId : Nat) (newType newCategory : String)
    (newAmount : Option Rat) (newDate : String) (st : Store) :
    UpdateOutcome × Store :=
  match st.transactions.find? (fun t => t.id == txnId && t.user == u) with
  | none => (.notFound, st)
  | some txn =>
    if pyLower (pyStrip newType) ≠ "" ∧
       ¬ (pyLower (pyStrip newType) = "income" ∨ pyLower (pyStrip newType) = "expense") then
      (.invalidInput, st)
    else if (newAmount.getD txn.amount) ≤ 0 then (.invalidInput, st)
    else if pyStrip newDate ≠ "" ∧ ¬ dateValid (pyStrip newDate) then (.invalidInput, st)
    else
      (.updated, { st with transactions := overwriteTxn txnId u (mergeTxn txn newType newCategory newAmount newDate) st.transactions })

/-- Outcome of delete_transaction. -/
inductive DeleteOutcome where
  | deleted
  | cancelled
  | notFound
deriving Repr, DecidableEq

/-- delete_transaction(user) from src/personal.py: the row is fetched by
(id, user); a miss prints "Transaction not found"; otherwise the reply to
the confirmation prompt is trimmed and lowercased and the DELETE runs only
when it equals "y", else the deletion is cancelled and nothing changes. -/
def deleteTransaction (u txnId : Nat) (confirm : String) (st : Store) :
    DeleteOutcome × Store :=
  match st.transactions.find? (fun t => t.id == txnId && t.user == u) with
  | none => (.notFound, st)
  | some _ =>
    if pyLower (pyStrip confirm) = "y" then
      (.deleted, { st with transactions := st.transactions.filter (fun t => !(t.id == txnId && t.user == u)) })
    else (.cancelled, st)

/-! ### Report engine -/

/-- The reference date (datetime.date.today() in the code; the spec injects
it as an environmental input). -/
structure RefDate where
  y : Nat
  m : Nat
  d : Nat
deriving Repr, DecidableEq

/-- An ASCII digit character for a value below ten. -/
def digitChar (n : Nat) : Char :=
  match n with
  | 0 => '0' | 1 => '1' | 2 => '2' | 3 => '3' | 4 => '4'
  | 5 => '5' | 6 => '6' | 7 => '7' | 8 => '8' | _ => '9'

/-- Two-digit zero-padded rendering (strftime %m). -/
def pad2Chars (n : Nat) : List Char := [digitChar (n / 10 % 10), digitChar (n % 10)]

/-- Four-digit zero-padded rendering (strftime %Y for years up to 9999). -/
def pad4Chars (n : Nat) : List Char :=
  [digitChar (n / 1000 % 10), digitChar (n / 100 % 10),
   digitChar (n / 10 % 10), digitChar (n % 10)]

/-- today.strftime('%Y-%m'): the monthly period key. -/
def ymKey (t : RefDate) : String := String.mk (pad4Chars t.y ++ '-' :: pad2Chars t.m)

/-- today.strftime('%Y'): the yearly period key. -/
def yKey (t : RefDate) : String := String.mk (pad4Chars t.y)

/-- The zero-padded ISO date string date(y, m, d).isoformat(). -/
def isoPad (y m d : Nat) : String :=
  String.mk (pad4Chars y ++ '-' :: (pad2Chars m ++ '-' :: pad2Chars d))

/-- The printed report. -/
structure Report where
  periodKey : String
  totalIncome : Rat
  totalExpense : Rat
  savings : Rat
deriving Repr, DecidableEq

/-- generate_report(user, period) from src/personal.py: for a monthly
(resp. yearly) period the SQL sums amounts grouped by type over the user's
rows whose strftime('%Y-%m', date) (resp. '%Y')  equals the key computed
from today; a type with no matching row keeps the initial total 0; savings
is income minus expenses.  Any other period string prints an error. -/
def generateReport (u : Nat) (period : String) (today : RefDate) (st : Store) :
    Option Report :=
  if period = "monthly" then
    let key := ymKey today
    let rows := st.transactions.filter (fun t => t.user == u && sqliteYM t.date == some key)
    let inc := sumAmounts (rows.filter (fun t => t.kind == "income"))
    let exp := sumAmounts (rows.filter (fun t => t.kind == "expense"))
    some ⟨key, inc, exp, inc - exp⟩
  else if period = "yearly" then
    let key := yKey today
    let rows := st.transactions.filter (fun t => t.user == u && sqliteY t.date == some key)
    let inc := sumAmounts (rows.filter (fun t => t.kind == "income"))
    let exp := sumAmounts (rows.filter (fun t => t.kind == "expense"))
    some ⟨key, inc, exp, inc - exp⟩
  else none

/-- Written from the specification's words, for comparison with the code:
the total over the user's income transactions whose date (as a calendar
date) falls in the (year, month) of the reference date. -/
def specMonthlyTotal (kind : String) (u : Nat) (today : RefDate) (st : Store) : Rat :=
  sumAmounts (st.transactions.filter (fun t =>
    t.user == u && t.kind == kind &&
    match dateYMD t.date with
    | some (y, m, _) => y == today.y && m == today.m
    | none => false))

/-- Written from the specification's words: the total over the user's
transactions of the given kind whose date falls in the year of the
reference date. -/
def specYearlyTotal (kind : String) (u : Nat) (today : RefDate) (st : Store) : Rat :=
  sumAmounts (st.transactions.filter (fun t =>
    t.user == u && t.kind == kind &&
    match dateYMD t.date with
    | some (y, _, _) => y == today.y
    | none => false))

/-! ### Helper lemmas -/

/-- insertDesc only rearranges: the result is a permutation of consing. -/
theorem insertDesc_perm (x : Txn) (l : List Txn) : (insertDesc x l).Perm (x :: l) := by
  induction l with
  | nil => simp [insertDesc]
  | cons y ys ih =>
    unfold insertDesc
    by_cases h : strLe x.date y.date = true
    · simp only [h, if_true]
      exact (ih.cons y).trans (List.Perm.swap x y ys)
    · simp [h]

/-- sortDesc only rearranges the scanned rows. -/
theorem sortDesc_perm (l : List Txn) : (sortDesc l).Perm l := by
  suffices h : ∀ acc : List Txn, (l.foldl (fun a x => insertDesc x a) acc).Perm (acc ++ l) by
    simpa using h []
  induction l with
  | nil => simp
  | cons x xs ih =>
    intro acc
    simp only [List.foldl_cons]
    refine (ih (insertDesc x acc)).trans ?_
    refine (List.Perm.append_right xs (insertDesc_perm x acc)).trans ?_
    simpa using (@List.perm_middle _ x acc xs).symm

/-- Membership in viewTransactions is membership in the user's rows. -/
theorem mem_viewTransactions {u : Nat} {st : Store} {t : Txn} :
    t ∈ viewTransactions u st ↔ t ∈ st.transactions ∧ t.user = u := by
  unfold viewTransactions
  rw [(sortDesc_perm _).mem_iff, List.mem_filter]
  simp

/-- find? over a map by a match-preserving function. -/
theorem find?_map_pres (l : List Txn) (f : Txn → Txn) (p : Txn → Bool)
    (hf : ∀ x, p (f x) = p x) : (l.map f).find? p = (l.find? p).map f := by
  induction l with
  | nil => rfl
  | cons x xs ih =>
    by_cases h : p x = true
    · simp [List.find?_cons, hf, h]
    · simp only [Bool.not_eq_true] at h
      simp [List.find?_cons, hf, h, ih]

/-- In a well-formed store two rows with the same id are the same row. -/
theorem StoreWF.id_inj {st : Store} (hwf : StoreWF st) {a b : Txn}
    (ha : a ∈ st.transactions) (hb : b ∈ st.transactions) (hid : a.id = b.id) : a = b := by
  by_contra hne
  have hforall := @List.Pairwise.forall Txn (fun x y => x.id ≠ y.id) st.transactions
    (fun x y h => h.symm) (hwf.1.imp (fun h => Nat.ne_of_lt h)) a ha b hb hne
  exact hforall hid

/-! ### C3: AddTransaction rejects invalid input without writing -/

/-- C3: for every input with non-positive amount, or kind (after the code's
trim and lowercase) outside income/expense, or empty category, or a
non-blank date that strptime('%Y-%m-%d') rejects, add_transaction reports
invalid input and returns the store unchanged: no row is persisted. -/
theorem claim3_addTransaction_invalid (st : Store) (u : Nat)
    (kindIn categoryIn : String) (amount : Rat) (dateIn today : String)
    (h : amount ≤ 0 ∨
         ¬ (pyLower (pyStrip kindIn) = "income" ∨ pyLower (pyStrip kindIn) = "expense") ∨
         pyStrip categoryIn = "" ∨
         (pyStrip dateIn ≠ "" ∧ dateValid (pyStrip dateIn) = false)) :
    addTransaction u kindIn categoryIn amount dateIn today st = (.invalidInput, st) := by
  unfold addTransaction
  split_ifs with h1 h2 h3 h4
  any_goals rfl
  all_goals exfalso
  all_goals rcases h with h | h | h | h
  all_goals first
    | exact h3 h
    | exact h h1
    | exact h2 h
    | exact h4 ⟨h.1, by simp [h.2]⟩

/-- Witness for C3: a negative amount is rejected on a concrete store. -/
theorem claim3_witness :
    addTransaction 1 "income" "Salary" (-5 : Rat) "2024-10-11" "2024-10-11"
      ⟨[], [], 1, 1⟩ = (.invalidInput, ⟨[], [], 1, 1⟩) :=
  claim3_addTransaction_invalid ⟨[], [], 1, 1⟩ 1 "income" "Salary" (-5) "2024-10-11"
    "2024-10-11" (Or.inl (by norm_num))

/-! ### C9: deletion happens only on a confirmed reply -/

/-- C9: with an existing transaction selected, the deletion runs only when
the confirmation reply, trimmed and lowercased, is exactly y: then the
selected row is removed and every other row of the store survives; for any
other reply the outcome is cancelled (not an error) and the store is
returned unchanged. -/
theorem claim9_delete_confirmation (st : Store) (u txnId : Nat) (confirm : String)
    (t : Txn) (ht : t ∈ st.transactions) (hid : t.id = txnId) (hu : t.user = u) :
    (pyLower (pyStrip confirm) ≠ "y" →
      deleteTransaction u txnId confirm st = (.cancelled, st)) ∧
    (pyLower (pyStrip confirm) = "y" →
      (deleteTransaction u txnId confirm st).1 = .deleted ∧
      t ∉ (deleteTransaction u txnId confirm st).2.transactions ∧
      ∀ t' ∈ st.transactions, ¬ (t'.id = txnId ∧ t'.user = u) →
        t' ∈ (deleteTransaction u txnId confirm st).2.transactions) := by
  have hfound : ∃ t', st.transactions.find?
      (fun t => t.id == txnId && t.user == u) = some t' := by
    have := @List.find?_isSome Txn st.transactions
      (fun t => t.id == txnId && t.user == u)
    rw [Option.isSome_iff_exists] at this
    exact this.mpr ⟨t, ht, by simp [hid, hu]⟩
  obtain ⟨t', ht'⟩ := hfound
  simp only [deleteTransaction, ht']
  constructor
  · intro hn; simp [hn]
  · intro hy
    refine ⟨by simp [hy], ?_, ?_⟩
    · simp only [hy, if_pos]
      intro hmem
      rw [List.mem_filter] at hmem
      simp [hid, hu] at hmem
    · intro t'' hmem hnot
      simp only [hy, if_pos]
      rw [List.mem_filter]
      refine ⟨hmem, ?_⟩
      simp only [Bool.not_eq_true']
      rw [Bool.and_eq_false_iff]
      by_cases h1 : t''.id = txnId
      · right; simp only [beq_eq_false_iff_ne, ne_eq]; exact fun h2 => hnot ⟨h1, h2⟩
      · left; simp [h1]

/-- Witness for C9: a reply of n cancels, a reply of Y (trimmed,
lowercased) deletes, on a concrete one-row store. -/
theorem claim9_witness :
    deleteTransaction 1 1 "n" ⟨[⟨1, 1, "expense", "Food", 5, "2024-10-11"⟩], [], 2, 1⟩
      = (.cancelled, ⟨[⟨1, 1, "expense", "Food", 5, "2024-10-11"⟩], [], 2, 1⟩) ∧
    (deleteTransaction 1 1 " Y " ⟨[⟨1, 1, "expense", "Food", 5, "2024-10-11"⟩], [], 2, 1⟩).1
      = .deleted :=
  ⟨(claim9_delete_confirmation _ 1 1 "n" ⟨1, 1, "expense", "Food", 5, "2024-10-11"⟩
      (by simp) rfl rfl).1 (by decide),
   ((claim9_delete_confirmation _ 1 1 " Y " ⟨1, 1, "expense", "Food", 5, "2024-10-11"⟩
      (by simp) rfl rfl).2 (by decide)).1⟩

/-! ### C7: deletion removes the row; a second delete is NotFound -/

/-- C7: for a transaction the user owns, a confirmed delete_transaction
reports success and removes the row: it is gone from the store, a
subsequent view_transactions for that user lists no transaction with that
id, and a second delete_transaction on the same id (with any reply) fails
with not-found and changes nothing. -/
theorem claim7_delete_removes (st : Store) (u txnId : Nat) (t : Txn)
    (confirm confirm2 : String) (ht : t ∈ st.transactions) (hid : t.id = txnId)
    (hu : t.user = u) (hy : pyLower (pyStrip confirm) = "y") :
    (deleteTransaction u txnId confirm st).1 = .deleted ∧
    t ∉ (deleteTransaction u txnId confirm st).2.transactions ∧
    (∀ t' ∈ viewTransactions u (deleteTransaction u txnId confirm st).2, t'.id ≠ txnId) ∧
    deleteTransaction u txnId confirm2 (deleteTransaction u txnId confirm st).2 =
      (.notFound, (deleteTransaction u txnId confirm st).2) := by
  have hfound : ∃ t', st.transactions.find?
      (fun t => t.id == txnId && t.user == u) = some t' := by
    have := @List.find?_isSome Txn st.transactions
      (fun t => t.id == txnId && t.user == u)
    rw [Option.isSome_iff_exists] at this
    exact this.mpr ⟨t, ht, by simp [hid, hu]⟩
  obtain ⟨t', ht'⟩ := hfound
  have hdel : deleteTransaction u txnId confirm st =
      (.deleted, { st with transactions := st.transactions.filter (fun t => !(t.id == txnId && t.user == u)) }) := by
    simp only [deleteTransaction, ht', hy, if_pos]
  have hnone : (st.transactions.filter
      (fun t => !(t.id == txnId && t.user == u))).find?
      (fun t => t.id == txnId && t.user == u) = none := by
    rw [List.find?_eq_none]
    intro x hx
    rw [List.mem_filter] at hx
    simp only [Bool.not_eq_true', Bool.and_eq_false_iff] at hx
    simp only [Bool.and_eq_true, beq_iff_eq, not_and]
    rcases hx.2 with h | h
    · intro hh; exact absurd hh (by simpa using h)
    · intro _; simpa using h
  refine ⟨by rw [hdel], ?_, ?_, ?_⟩
  · rw [hdel]
    intro hmem
    rw [List.mem_filter] at hmem
    simp [hid, hu] at hmem
  · intro t'' hmem
    rw [mem_viewTransactions, hdel] at hmem
    have := hmem.1
    rw [List.mem_filter] at this
    simp only [Bool.not_eq_true', Bool.and_eq_false_iff] at this
    rcases this.2 with h | h
    · simpa using h
    · exact absurd (by simpa using hmem.2) (by simpa using h)
  · rw [hdel]
    simp only [deleteTransaction]
    rw [hnone]

/-- Witness for C7 on a concrete two-row store. -/
theorem claim7_witness :
    (deleteTransaction 1 1 "y" ⟨[⟨1, 1, "expense", "Food", 5, "2024-10-11"⟩, ⟨2, 1, "income", "Pay", 7, "2024-10-12"⟩], [], 3, 1⟩).1 = .deleted ∧
    deleteTransaction 1 1 "y" (deleteTransaction 1 1 "y" ⟨[⟨1, 1, "expense", "Food", 5, "2024-10-11"⟩, ⟨2, 1, "income", "Pay", 7, "2024-10-12"⟩], [], 3, 1⟩).2 =
      (.notFound, (deleteTransaction 1 1 "y" ⟨[⟨1, 1, "expense", "Food", 5, "2024-10-11"⟩, ⟨2, 1, "income", "Pay", 7, "2024-10-12"⟩], [], 3, 1⟩).2) := by
  have h := claim7_delete_removes
    ⟨[⟨1, 1, "expense", "Food", 5, "2024-10-11"⟩, ⟨2, 1, "income", "Pay", 7, "2024-10-12"⟩], [], 3, 1⟩
    1 1 ⟨1, 1, "expense", "Food", 5, "2024-10-11"⟩ "y" "y" (by simp) rfl rfl (by decide)
  exact ⟨h.1, h.2.2.2⟩

/-! ### C5: cross-user access is NotFound, like a missing id -/

/-- C5: when user A does not own any transaction with the requested id —
in particular when the id belongs to a different user B, or when no
transaction has that id at all — update_transaction and delete_transaction
both fail with not-found and return the store unchanged; the two situations
produce identical results, so existence does not leak. -/
theorem claim5_crossUser_notFound (st : Store) (A B txnId txnId2 : Nat) (t : Txn)
    (hwf : StoreWF st) (ht : t ∈ st.transactions) (hid : t.id = txnId)
    (hB : t.user = B) (hAB : A ≠ B)
    (nt nc : String) (na : Option Rat) (nd confirm : String)
    (habsent : ∀ t' ∈ st.transactions, t'.id ≠ txnId2) :
    updateTransaction A txnId nt nc na nd st = (.notFound, st) ∧
    deleteTransaction A txnId confirm st = (.notFound, st) ∧
    updateTransaction A txnId2 nt nc na nd st = (.notFound, st) ∧
    deleteTransaction A txnId2 confirm st = (.notFound, st) := by
  have hnone : st.transactions.find? (fun x => x.id == txnId && x.user == A) = none := by
    rw [List.find?_eq_none]
    intro x hx
    simp only [Bool.and_eq_true, beq_iff_eq, not_and]
    intro hxid
    have hxt : x = t := hwf.id_inj hx ht (by rw [hxid, hid])
    rw [hxt, hB]
    exact fun hBA => hAB hBA.symm
  have hnone2 : st.transactions.find? (fun x => x.id == txnId2 && x.user == A) = none := by
    rw [List.find?_eq_none]
    intro x hx
    simp only [Bool.and_eq_true, beq_iff_eq, not_and]
    intro hxid
    exact absurd hxid (habsent x hx)
  refine ⟨?_, ?_, ?_, ?_⟩
  · simp only [updateTransaction, hnone]
  · simp only [deleteTransaction, hnone]
  · simp only [updateTransaction, hnone2]
  · simp only [deleteTransaction, hnone2]

/-- Witness for C5: user 2 probing user 1's transaction id 1, and the
never-assigned id 9, on a concrete store. -/
theorem claim5_witness :
    updateTransaction 2 1 "" "" none "" ⟨[⟨1, 1, "expense", "Food", 5, "2024-10-11"⟩], [], 2, 1⟩ =
      (.notFound, ⟨[⟨1, 1, "expense", "Food", 5, "2024-10-11"⟩], [], 2, 1⟩) ∧
    deleteTransaction 2 9 "y" ⟨[⟨1, 1, "expense", "Food", 5, "2024-10-11"⟩], [], 2, 1⟩ =
      (.notFound, ⟨[⟨1, 1, "expense", "Food", 5, "2024-10-11"⟩], [], 2, 1⟩) := by
  have h := claim5_crossUser_notFound
    ⟨[⟨1, 1, "expense", "Food", 5, "2024-10-11"⟩], [], 2, 1⟩ 2 1 1 9
    ⟨1, 1, "expense", "Food", 5, "2024-10-11"⟩ (by constructor <;> decide)
    (by simp) rfl rfl (by decide) "" "" none "" "y" (by decide)
  exact ⟨h.1, h.2.2.2⟩

/-! ### C2: SetBudget upsert keeps (user, category) unique -/

/-- The uniqueness invariant of the budgets table: no two rows share a
(user, category) key (the UNIQUE(user_id, category) index). -/
def BudgetKeysUnique (st : Store) : Prop :=
  st.budgets.Pairwise (fun a b => ¬ (a.user = b.user ∧ a.category = b.category))

instance (st : Store) : Decidable (BudgetKeysUnique st) := by
  unfold BudgetKeysUnique; infer_instance

/-- A key-distinct list filtered to one key yields the sole member with
that key. -/
theorem filter_key_singleton {l : List Budget} {u : Nat} {c : String}
    (hp : l.Pairwise (fun a b => ¬ (a.user = b.user ∧ a.category = b.category)))
    {b : Budget} (hb : b ∈ l) (hbu : b.user = u) (hbc : b.category = c) :
    l.filter (fun x => x.user == u && x.category == c) = [b] := by
  induction l with
  | nil => cases hb
  | cons x xs ih =>
    rw [List.pairwise_cons] at hp
    rcases List.mem_cons.mp hb with hbx | hbxs
    · subst hbx
      have hrest : xs.filter (fun x => x.user == u && x.category == c) = [] := by
        rw [List.filter_eq_nil_iff]
        intro a ha
        simp only [Bool.and_eq_true, beq_iff_eq, not_and]
        intro h1 h2
        exact hp.1 a ha ⟨hbu.trans h1.symm, hbc.trans h2.symm⟩
      simp [List.filter_cons, hbu, hbc, hrest]
    · have hxnot : (x.user == u && x.category == c) = false := by
        simp only [Bool.and_eq_false_iff, beq_eq_false_iff_ne, ne_eq]
        by_cases h1 : x.user = u
        · right
          intro h2
          exact hp.1 b hbxs ⟨h1.trans hbu.symm, h2.trans hbc.symm⟩
        · left; exact h1
      rw [List.filter_cons, hxnot]
      simp only [Bool.false_eq_true, if_false]
      exact ih hp.2 hbxs

/-- C2: set_budget has upsert semantics.  Every call preserves the
(user, category) uniqueness invariant; a valid call leaves exactly one
budget row for its key, holding the new amount; hence after any first call
(valid or not) followed by a valid call for the same key, exactly one row
for that key remains and its amount is the most recent call's value. -/
theorem claim2_setBudget_upsert (st : Store) (u : Nat) (c : String) (x y : Rat) :
    (BudgetKeysUnique st → BudgetKeysUnique (setBudget u c x st).2) ∧
    (BudgetKeysUnique st → pyStrip c ≠ "" → 0 < y →
      ((setBudget u c y st).2.budgets.filter
        (fun b => b.user == u && b.category == pyStrip c)).map Budget.amount = [y]) ∧
    (BudgetKeysUnique st → pyStrip c ≠ "" → 0 < y →
      (((setBudget u c y (setBudget u c x st).2).2.budgets.filter
        (fun b => b.user == u && b.category == pyStrip c)).map Budget.amount = [y])) := by
  have preserve : ∀ (s : Store) (a : Rat), BudgetKeysUnique s →
      BudgetKeysUnique (setBudget u c a s).2 := by
    intro s a hs
    unfold setBudget
    split_ifs with h1 h2 h3
    · exact hs
    · exact hs
    · unfold BudgetKeysUnique overwriteBudget
      rw [List.pairwise_map]
      refine hs.imp ?_
      intro p q hpq
      split_ifs <;> simpa using hpq
    · unfold BudgetKeysUnique
      rw [List.pairwise_append]
      refine ⟨hs, by simp, ?_⟩
      intro p hp q hq
      rw [List.mem_singleton] at hq
      subst hq
      intro hkey
      rw [List.any_eq_true] at h3
      exact h3 ⟨p, hp, by simp [hkey.1, hkey.2]⟩
  have once : ∀ (s : Store), BudgetKeysUnique s → pyStrip c ≠ "" → 0 < y →
      ((setBudget u c y s).2.budgets.filter
        (fun b => b.user == u && b.category == pyStrip c)).map Budget.amount = [y] := by
    intro s hs hc hy
    unfold setBudget
    rw [if_neg hc, if_neg (by exact not_le.mpr hy)]
    by_cases hex : s.budgets.any (fun b => b.user == u && b.category == pyStrip c)
    · rw [if_pos hex]
      rw [List.any_eq_true] at hex
      obtain ⟨b, hb, hbkey⟩ := hex
      rw [Bool.and_eq_true, beq_iff_eq, beq_iff_eq] at hbkey
      have hmap : BudgetKeysUnique { s with budgets := overwriteBudget u (pyStrip c) y s.budgets } := by
        unfold BudgetKeysUnique overwriteBudget
        rw [List.pairwise_map]
        refine hs.imp ?_
        intro p q hpq
        split_ifs <;> simpa using hpq
      have hbmem : ({ b with amount := y } : Budget) ∈
          ({ s with budgets := overwriteBudget u (pyStrip c) y s.budgets } : Store).budgets := by
        unfold overwriteBudget
        rw [List.mem_map]
        exact ⟨b, hb, by simp [hbkey.1, hbkey.2]⟩
      rw [filter_key_singleton hmap hbmem (by simp [hbkey.1]) (by simp [hbkey.2])]
      simp
    · rw [if_neg hex]
      have hrest : s.budgets.filter (fun b => b.user == u && b.category == pyStrip c) = [] := by
        rw [List.filter_eq_nil_iff]
        intro a ha hkey
        exact hex (List.any_eq_true.mpr ⟨a, ha, hkey⟩)
      simp [List.filter_append, hrest]
  refine ⟨preserve st x, once st, ?_⟩
  intro hs hc hy
  exact once (setBudget u c x st).2 (preserve st x hs) hc hy

/-- Witness for C2: set Food to 100 then to 250; one row with amount 250. -/
theorem claim2_witness :
    (((setBudget 1 "Food" 250 (setBudget 1 "Food" 100 ⟨[], [], 1, 1⟩).2).2.budgets.filter
      (fun b => b.user == 1 && b.category == pyStrip "Food")).map Budget.amount = [250]) :=
  (claim2_setBudget_upsert ⟨[], [], 1, 1⟩ 1 "Food" 100 250).2.2 (by decide) (by decide)
    (by decide)

/-! ### C1: EvaluateCategory (check_budget) -/

/-- C1: with no budget row for (user, category), check_budget reports
NoBudget regardless of transaction history; with a budget row b for the
key (unique by the table invariant), and spent the sum of the amounts of
the user's expense transactions in that category (0 when there are none),
it reports Exceeded exactly when spent > b.amount, AtLimit exactly when
spent = b.amount (exact equality on the stored decimals), and OK exactly
when spent < b.amount. -/
theorem claim1_checkBudget_evaluates (st : Store) (u : Nat) (c : String) :
    ((∀ b ∈ st.budgets, ¬ (b.user = u ∧ b.category = c)) →
      checkBudget u c st = .noBudget) ∧
    (∀ b ∈ st.budgets, b.user = u → b.category = c → BudgetKeysUnique st →
      ((checkBudget u c st = .exceeded ↔
        b.amount < sumAmounts (st.transactions.filter
          (fun t => t.user == u && t.kind == "expense" && t.category == c))) ∧
       (checkBudget u c st = .atLimit ↔
        sumAmounts (st.transactions.filter
          (fun t => t.user == u && t.kind == "expense" && t.category == c)) = b.amount) ∧
       (checkBudget u c st = .ok ↔
        sumAmounts (st.transactions.filter
          (fun t => t.user == u && t.kind == "expense" && t.category == c)) < b.amount))) := by
  constructor
  · intro habs
    have hnone : st.budgets.find? (fun b => b.user == u && b.category == c) = none := by
      rw [List.find?_eq_none]
      intro b hb
      simp only [Bool.and_eq_true, beq_iff_eq, not_and]
      intro h1 h2
      exact habs b hb ⟨h1, h2⟩
    simp only [checkBudget, hnone]
  · intro b hb hbu hbc huniq
    have hsome : st.budgets.find? (fun x => x.user == u && x.category == c) = some b := by
      have hmem0 : b ∈ st.budgets.filter (fun x => x.user == u && x.category == c) := by
        rw [filter_key_singleton huniq hb hbu hbc]
        simp
      cases hfind : st.budgets.find? (fun x => x.user == u && x.category == c) with
      | none =>
        rw [List.find?_eq_none] at hfind
        rw [List.mem_filter] at hmem0
        exact absurd hmem0.2 (hfind b hb)
      | some b' =>
        have hb'mem := List.mem_of_find?_eq_some hfind
        have hb'p := List.find?_some hfind
        rw [Bool.and_eq_true, beq_iff_eq, beq_iff_eq] at hb'p
        have hmem' : b' ∈ st.budgets.filter (fun x => x.user == u && x.category == c) := by
          rw [List.mem_filter]
          exact ⟨hb'mem, by simp [hb'p.1, hb'p.2]⟩
        rw [filter_key_singleton huniq hb hbu hbc, List.mem_singleton] at hmem'
        rw [hmem']
    simp only [checkBudget, hsome]
    rcases lt_trichotomy (sumAmounts (st.transactions.filter
      (fun t => t.user == u && t.kind == "expense" && t.category == c))) b.amount
      with hlt | heq | hgt
    · rw [if_neg (by exact not_lt.mpr hlt.le), if_neg (by simp [hlt.ne])]
      refine ⟨⟨(by intro h; cases h), fun h => absurd h (not_lt.mpr hlt.le)⟩, ?_, ?_⟩
      · exact ⟨(by intro h; cases h), fun h => absurd h hlt.ne⟩
      · exact ⟨fun _ => hlt, fun _ => rfl⟩
    · rw [if_neg (by simp [heq]), if_pos (by simp [heq])]
      refine ⟨⟨(by intro h; cases h), fun h => absurd h (by simp [heq])⟩, ?_, ?_⟩
      · exact ⟨fun _ => heq, fun _ => rfl⟩
      · exact ⟨(by intro h; cases h), fun h => absurd h (by simp [heq])⟩
    · rw [if_pos hgt]
      refine ⟨⟨fun _ => hgt, fun _ => rfl⟩, ?_, ?_⟩
      · exact ⟨(by intro h; cases h), fun h => absurd h (by simp [hgt.ne'])⟩
      · exact ⟨(by intro h; cases h), fun h => absurd h (not_lt.mpr hgt.le)⟩

/-- Witness for C1: budget Food = 100 and a single Food expense of 100 is
AtLimit via the theorem's equality direction. -/
theorem claim1_witness :
    checkBudget 1 "Food" ⟨[⟨1, 1, "expense", "Food", 100, "2024-10-11"⟩], [⟨1, 1, "Food", 100⟩], 2, 2⟩ = .atLimit := by
  have h := (claim1_checkBudget_evaluates
    ⟨[⟨1, 1, "expense", "Food", 100, "2024-10-11"⟩], [⟨1, 1, "Food", 100⟩], 2, 2⟩
    1 "Food").2 ⟨1, 1, "Food", 100⟩ (by simp) rfl rfl (by decide)
  exact h.2.1.mpr (by simp [sumAmounts])

/-! ### Update helpers -/

/-- In a well-formed store the fetch by (id, user) of an owned row returns
exactly that row. -/
theorem find_unique_row {st : Store} (hwf : StoreWF st) {t : Txn} {txnId u : Nat}
    (ht : t ∈ st.transactions) (hid : t.id = txnId) (hu : t.user = u) :
    st.transactions.find? (fun x => x.id == txnId && x.user == u) = some t := by
  cases hfind : st.transactions.find? (fun x => x.id == txnId && x.user == u) with
  | none =>
    rw [List.find?_eq_none] at hfind
    exact absurd (by simp [hid, hu]) (hfind t ht)
  | some x =>
    have hxmem := List.mem_of_find?_eq_some hfind
    have hxp := List.find?_some hfind
    rw [Bool.and_eq_true, beq_iff_eq, beq_iff_eq] at hxp
    rw [hwf.id_inj hxmem ht (by rw [hxp.1, hid])]

/-- Fetching the (id, user) row after an UPDATE that rewrites matching rows
with an id- and user-preserving function returns the rewritten row. -/
theorem find_overwriteTxn {st : Store} (hwf : StoreWF st) {t : Txn} {txnId u : Nat}
    (ht : t ∈ st.transactions) (hid : t.id = txnId) (hu : t.user = u) (f : Txn → Txn)
    (hf : ∀ x, (f x).id = x.id ∧ (f x).user = x.user) :
    (overwriteTxn txnId u f st.transactions).find?
      (fun x => x.id == txnId && x.user == u) = some (f t) := by
  unfold overwriteTxn
  have hpres : ∀ x : Txn,
      ((fun y : Txn => y.id == txnId && y.user == u)
        (if x.id == txnId && x.user == u then f x else x)) =
      ((fun y : Txn => y.id == txnId && y.user == u) x) := by
    intro x
    by_cases hx : (x.id == txnId && x.user == u) = true
    · simp only [hx, if_pos]
      rw [Bool.and_eq_true, beq_iff_eq, beq_iff_eq] at hx
      simp [(hf x).1, (hf x).2, hx.1, hx.2]
    · simp only [Bool.not_eq_true] at hx
      simp [hx]
  rw [find?_map_pres _ _ _ hpres, find_unique_row hwf ht hid hu]
  simp [hid, hu]

/-- Merging a row with itself under all-blank field inputs is the identity. -/
theorem mergeTxn_self (t : Txn) : mergeTxn t "" "" none "" t = t := by
  unfold mergeTxn
  simp [pyStrip, pyLower]

/-! ### C6: an empty partial update is a no-op; blanks retain fields -/

/-- C6: update_transaction on an owned row with every field input blank
succeeds and leaves the store exactly as it was; and in general, whenever
an update succeeds, the stored row keeps the prior value of every field
whose input was blank (type, category, amount, date individually). -/
theorem claim6_update_noop (st : Store) (u txnId : Nat) (t : Txn)
    (hwf : StoreWF st) (ht : t ∈ st.transactions) (hid : t.id = txnId)
    (hu : t.user = u) :
    updateTransaction u txnId "" "" none "" st = (.updated, st) ∧
    (∀ nt nc na nd, (updateTransaction u txnId nt nc na nd st).1 = .updated →
      ∃ t', (updateTransaction u txnId nt nc na nd st).2.transactions.find?
          (fun x => x.id == txnId && x.user == u) = some t' ∧
        (pyLower (pyStrip nt) = "" → t'.kind = t.kind) ∧
        (pyStrip nc = "" → t'.category = t.category) ∧
        (na = none → t'.amount = t.amount) ∧
        (pyStrip nd = "" → t'.date = t.date)) := by
  have hfind := find_unique_row hwf ht hid hu
  constructor
  · simp only [updateTransaction, hfind]
    rw [if_neg (by simp [pyStrip, pyLower]), if_neg (by simpa using not_le.mpr (hwf.2 t ht)),
        if_neg (by simp [pyStrip])]
    have hover : overwriteTxn txnId u (mergeTxn t "" "" none "") st.transactions =
        st.transactions := by
      unfold overwriteTxn
      have : ∀ x ∈ st.transactions,
          (if x.id == txnId && x.user == u then mergeTxn t "" "" none "" x else x) = id x := by
        intro x hx
        by_cases hmx : (x.id == txnId && x.user == u) = true
        · rw [if_pos hmx]
          rw [Bool.and_eq_true, beq_iff_eq, beq_iff_eq] at hmx
          rw [hwf.id_inj hx ht (by rw [hmx.1, hid])]
          exact mergeTxn_self t
        · simp only [Bool.not_eq_true] at hmx
          simp [hmx]
      rw [List.map_congr_left this, List.map_id]
    rw [hover]
  · intro nt nc na nd hout
    simp only [updateTransaction, hfind] at hout ⊢
    split_ifs at hout ⊢ with hc1 hc2 hc3
    any_goals cases hout
    refine ⟨mergeTxn t nt nc na nd t, ?_, ?_, ?_, ?_, ?_⟩
    · exact find_overwriteTxn hwf ht hid hu _ (fun x => by simp [mergeTxn])
    · intro hb; simp [mergeTxn, hb]
    · intro hb; simp [mergeTxn, hb]
    · intro hb; simp [mergeTxn, hb]
    · intro hb; simp [mergeTxn, hb]

/-- Witness for C6: an all-blank update leaves a concrete store intact. -/
theorem claim6_witness :
    updateTransaction 1 1 "" "" none "" ⟨[⟨1, 1, "expense", "Food", 5, "2024-10-11"⟩], [], 2, 1⟩ =
      (.updated, ⟨[⟨1, 1, "expense", "Food", 5, "2024-10-11"⟩], [], 2, 1⟩) :=
  (claim6_update_noop ⟨[⟨1, 1, "expense", "Food", 5, "2024-10-11"⟩], [], 2, 1⟩ 1 1
    ⟨1, 1, "expense", "Food", 5, "2024-10-11"⟩ (by constructor <;> decide) (by simp)
    rfl rfl).1

/-! ### C10: strptime acceptance and verbatim date storage -/

/-- C10: the date gate of add_transaction and update_transaction is exactly
the strptime('%Y-%m-%d') model dateValid, which accepts non-zero-padded
forms such as 2024-1-5; an accepted non-blank date input is stored exactly
as entered (after the strip of the input), with no normalisation to the
zero-padded ISO form, both on insert and on update; a rejected one fails
with invalid input. -/
theorem claim10_date_verbatim :
    dateValid "2024-1-5" = true ∧
    (∀ (st : Store) (u : Nat) (k c : String) (a : Rat) (d today : String),
      (pyLower (pyStrip k) = "income" ∨ pyLower (pyStrip k) = "expense") →
      pyStrip c ≠ "" → 0 < a → pyStrip d ≠ "" →
      ((dateValid (pyStrip d) = true →
        addTransaction u k c a d today st =
          (.added st.nextTxnId, { st with transactions := st.transactions ++ [⟨st.nextTxnId, u, pyLower (pyStrip k), pyStrip c, a, pyStrip d⟩], nextTxnId := st.nextTxnId + 1 })) ∧
       (dateValid (pyStrip d) = false →
        addTransaction u k c a d today st = (.invalidInput, st)))) ∧
    (∀ (st : Store) (u txnId : Nat) (t : Txn) (nd : String),
      StoreWF st → t ∈ st.transactions → t.id = txnId → t.user = u →
      pyStrip nd ≠ "" →
      ((dateValid (pyStrip nd) = true →
        (updateTransaction u txnId "" "" none nd st).2.transactions.find?
          (fun x => x.id == txnId && x.user == u) = some { t with date := pyStrip nd }) ∧
       (dateValid (pyStrip nd) = false →
        updateTransaction u txnId "" "" none nd st = (.invalidInput, st)))) := by
  refine ⟨by decide, ?_, ?_⟩
  · intro st u k c a d today hk hc ha hd
    constructor
    · intro hdv
      unfold addTransaction
      rw [if_neg (not_not_intro hk), if_neg hc, if_neg (not_le.mpr ha),
          if_neg (by simp [hd, hdv]), if_neg hd]
    · intro hdv
      unfold addTransaction
      rw [if_neg (not_not_intro hk), if_neg hc, if_neg (not_le.mpr ha),
          if_pos ⟨hd, by simp [hdv]⟩]
  · intro st u txnId t nd hwf ht hid hu hnd
    have hfind := find_unique_row hwf ht hid hu
    constructor
    · intro hdv
      simp only [updateTransaction, hfind]
      rw [if_neg (by simp [pyStrip, pyLower]),
          if_neg (by simpa using not_le.mpr (hwf.2 t ht)), if_neg (by simp [hnd, hdv])]
      have hres := find_overwriteTxn hwf ht hid hu (mergeTxn t "" "" none nd)
        (fun x => by simp [mergeTxn])
      rw [hres]
      have hb1 : pyLower (pyStrip "") = "" := by decide
      have hb2 : pyStrip "" = "" := by decide
      unfold mergeTxn
      rw [hb1, hb2]
      simp [hnd]
    · intro hdv
      simp only [updateTransaction, hfind]
      rw [if_neg (by simp [pyStrip, pyLower]),
          if_neg (by simpa using not_le.mpr (hwf.2 t ht)), if_pos ⟨hnd, by simp [hdv]⟩]

/-- Witness for C10: adding with date 2024-1-5 stores the string verbatim;
updating to 2024-2-30 (an invalid calendar date) is rejected. -/
theorem claim10_witness :
    addTransaction 1 "income" "Salary" 5 "2024-1-5" "2024-10-11" ⟨[], [], 1, 1⟩ =
      (.added 1, ⟨[⟨1, 1, "income", "Salary", 5, "2024-1-5"⟩], [], 2, 1⟩) ∧
    updateTransaction 1 1 "" "" none "2024-2-30" ⟨[⟨1, 1, "income", "Salary", 5, "2024-1-5"⟩], [], 2, 1⟩ =
      (.invalidInput, ⟨[⟨1, 1, "income", "Salary", 5, "2024-1-5"⟩], [], 2, 1⟩) := by
  constructor
  · have h := (claim10_date_verbatim.2.1 ⟨[], [], 1, 1⟩ 1 "income" "Salary" 5 "2024-1-5"
      "2024-10-11" (by decide) (by decide) (by decide) (by decide)).1 (by decide)
    exact h
  · have h := (claim10_date_verbatim.2.2 ⟨[⟨1, 1, "income", "Salary", 5, "2024-1-5"⟩], [], 2, 1⟩
      1 1 ⟨1, 1, "income", "Salary", 5, "2024-1-5"⟩ "2024-2-30"
      (by constructor <;> decide) (by simp) rfl rfl (by decide)).2 (by decide)
    exact h

/-! ### String order lemmas (for the ORDER BY model) -/

theorem char_eq_of_toNat_eq {a b : Char} (h : a.toNat = b.toNat) : a = b :=
  Char.ext (UInt32.ext h)

theorem strLeChars_refl (l : List Char) : strLeChars l l = true := by
  induction l with
  | nil => rfl
  | cons x xs ih => simp [strLeChars, ih]

theorem strLeChars_total (a b : List Char) :
    strLeChars a b = true ∨ strLeChars b a = true := by
  induction a generalizing b with
  | nil => left; rfl
  | cons x xs ih =>
    cases b with
    | nil => right; rfl
    | cons y ys =>
      rcases Nat.lt_trichotomy x.toNat y.toNat with h | h | h
      · left; simp [strLeChars, h]
      · rcases ih ys with h2 | h2
        · left; simp [strLeChars, h, h2]
        · right; simp [strLeChars, h.symm, h2]
      · right; simp [strLeChars, h]

theorem strLeChars_antisymm {a b : List Char} (h1 : strLeChars a b = true)
    (h2 : strLeChars b a = true) : a = b := by
  induction a generalizing b with
  | nil => cases b with
    | nil => rfl
    | cons y ys => simp [strLeChars] at h2
  | cons x xs ih =>
    cases b with
    | nil => simp [strLeChars] at h1
    | cons y ys =>
      rcases Nat.lt_trichotomy x.toNat y.toNat with h | h | h
      · rw [strLeChars] at h2
        rw [if_neg (by omega), if_pos h] at h2
        cases h2
      · rw [strLeChars, if_neg (by omega), if_neg (by omega)] at h1 h2
        rw [char_eq_of_toNat_eq h, ih h1 h2]
      · rw [strLeChars] at h1
        rw [if_neg (by omega), if_pos h] at h1
        cases h1

theorem strLeChars_trans {a b c : List Char} (h1 : strLeChars a b = true)
    (h2 : strLeChars b c = true) : strLeChars a c = true := by
  induction a generalizing b c with
  | nil => rfl
  | cons x xs ih =>
    cases b with
    | nil => simp [strLeChars] at h1
    | cons y ys =>
      cases c with
      | nil => simp [strLeChars] at h2
      | cons z zs =>
        rw [strLeChars] at h1 h2 ⊢
        rcases Nat.lt_trichotomy x.toNat y.toNat with hxy | hxy | hxy <;>
          rcases Nat.lt_trichotomy y.toNat z.toNat with hyz | hyz | hyz
        all_goals first
          | (rw [if_pos (by omega)])
          | (rw [if_neg (by omega), if_pos (by omega)] at h1; cases h1)
          | (rw [if_neg (by omega), if_pos (by omega)] at h2; cases h2)
          | (rw [if_neg (by omega), if_neg (by omega)] at h1 h2 ⊢; exact ih h1 h2)

theorem strLe_refl (a : String) : strLe a a = true := strLeChars_refl a.data

theorem strLe_total (a b : String) : strLe a b = true ∨ strLe b a = true :=
  strLeChars_total a.data b.data

theorem strLe_antisymm {a b : String} (h1 : strLe a b = true) (h2 : strLe b a = true) :
    a = b := String.ext (strLeChars_antisymm h1 h2)

theorem strLe_trans {a b c : String} (h1 : strLe a b = true) (h2 : strLe b c = true) :
    strLe a c = true := strLeChars_trans h1 h2

/-! ### Sortedness of the transaction listing -/

/-- The order view_transactions actually produces: dates descending in the
byte order of the stored strings, rows with equal date strings in rowid
(insertion) order. -/
def ViewOrdered (a b : Txn) : Prop :=
  strLe b.date a.date = true ∧ (a.date = b.date → a.id < b.id)

theorem mem_insertDesc {z x : Txn} {l : List Txn} :
    z ∈ insertDesc x l ↔ z = x ∨ z ∈ l := by
  rw [(insertDesc_perm x l).mem_iff, List.mem_cons]

theorem insertDesc_sorted {x : Txn} {l : List Txn} (hl : l.Pairwise ViewOrdered)
    (hid : ∀ y ∈ l, y.id < x.id) : (insertDesc x l).Pairwise ViewOrdered := by
  induction l with
  | nil => simp [insertDesc]
  | cons y ys ih =>
    rw [List.pairwise_cons] at hl
    unfold insertDesc
    by_cases h : strLe x.date y.date = true
    · rw [if_pos h, List.pairwise_cons]
      constructor
      · intro z hz
        rcases mem_insertDesc.mp hz with hz | hz
        · subst hz
          exact ⟨h, fun hdates => hid y (List.mem_cons_self y ys) ⟩
        · exact hl.1 z hz
      · exact ih hl.2 (fun y hy => hid y (List.mem_cons_of_mem _ hy))
    · rw [if_neg h, List.pairwise_cons]
      have hxy : strLe y.date x.date = true := by
        rcases strLe_total x.date y.date with h2 | h2
        · exact absurd h2 h
        · exact h2
      constructor
      · intro z hz
        rcases List.mem_cons.mp hz with hz | hz
        · subst hz
          refine ⟨hxy, fun hdates => absurd (hdates ▸ strLe_refl x.date) h⟩
        · have hyz := hl.1 z hz
          refine ⟨strLe_trans hyz.1 hxy, fun hdates => ?_⟩
          exact absurd (hdates ▸ hyz.1) h
      · exact List.pairwise_cons.mpr hl

theorem sortDesc_sorted {l : List Txn} (h : l.Pairwise (fun a b => a.id < b.id)) :
    (sortDesc l).Pairwise ViewOrdered := by
  suffices hgen : ∀ acc : List Txn, acc.Pairwise ViewOrdered →
      (∀ x ∈ l, ∀ y ∈ acc, y.id < x.id) →
      (l.foldl (fun a x => insertDesc x a) acc).Pairwise ViewOrdered by
    exact hgen [] (by simp) (by simp)
  induction l with
  | nil => intro acc hacc _; exact hacc
  | cons x xs ih =>
    intro acc hacc hids
    rw [List.pairwise_cons] at h
    simp only [List.foldl_cons]
    refine ih h.2 (insertDesc x acc)
      (insertDesc_sorted hacc (fun y hy => hids x (List.mem_cons_self x xs) y hy)) ?_
    intro z hz y hy
    rcases mem_insertDesc.mp hy with hy | hy
    · subst hy; exact h.1 z hz
    · exact hids z (List.mem_cons_of_mem _ hz) y hy

/-! ### C8: the transaction listing order -/

/-- C8 counterexample: both 2024-2-1 and 2024-10-1 pass the add/update date
gate (strptime accepts non-padded forms), yet view_transactions for a user
holding those two rows lists the February transaction first, although its
calendar date is strictly earlier than the October one: the listing orders
the raw date strings bytewise, not the calendar dates, so the claimed
date-descending order fails. -/
theorem claim8_counterexample :
    viewTransactions 1 ⟨[⟨1, 1, "expense", "A", 1, "2024-2-1"⟩, ⟨2, 1, "expense", "B", 1, "2024-10-1"⟩], [], 3, 1⟩ =
      [⟨1, 1, "expense", "A", 1, "2024-2-1"⟩, ⟨2, 1, "expense", "B", 1, "2024-10-1"⟩] ∧
    dateValid "2024-2-1" = true ∧ dateValid "2024-10-1" = true ∧
    dateYMD "2024-2-1" = some (2024, 2, 1) ∧ dateYMD "2024-10-1" = some (2024, 10, 1) ∧
    calLt (2024, 2, 1) (2024, 10, 1) := by
  refine ⟨by decide, by decide, by decide, by decide, by decide, ?_⟩
  unfold calLt
  norm_num

/-- C8 as amended: view_transactions returns exactly the user's
transactions (a permutation of the user's rows, and the empty list — not
an error — when there are none), ordered by the stored date STRINGS
descending in byte order (which coincides with calendar order only for
zero-padded dates), with ties in the date string broken by insertion
(rowid) order. -/
theorem claim8_view_order (st : Store) (u : Nat) :
    (viewTransactions u st).Perm (st.transactions.filter (fun t => t.user == u)) ∧
    (StoreWF st → (viewTransactions u st).Pairwise ViewOrdered) ∧
    ((∀ t ∈ st.transactions, t.user ≠ u) → viewTransactions u st = []) := by
  refine ⟨sortDesc_perm _, ?_, ?_⟩
  · intro hwf
    exact sortDesc_sorted (hwf.1.filter _)
  · intro hnone
    have hfil : st.transactions.filter (fun t => t.user == u) = [] := by
      rw [List.filter_eq_nil_iff]
      intro t ht
      simpa using hnone t ht
    unfold viewTransactions
    rw [hfil]
    rfl

/-- Witness for C8: the ordering holds on a concrete well-formed store and
a user with no transactions gets the empty listing. -/
theorem claim8_witness :
    (viewTransactions 1 ⟨[⟨1, 1, "expense", "A", 1, "2024-10-01"⟩, ⟨2, 1, "expense", "B", 1, "2024-10-11"⟩], [], 3, 1⟩).Pairwise ViewOrdered ∧
    viewTransactions 7 ⟨[⟨1, 1, "expense", "A", 1, "2024-10-01"⟩, ⟨2, 1, "expense", "B", 1, "2024-10-11"⟩], [], 3, 1⟩ = [] :=
  ⟨(claim8_view_order ⟨[⟨1, 1, "expense", "A", 1, "2024-10-01"⟩, ⟨2, 1, "expense", "B", 1, "2024-10-11"⟩], [], 3, 1⟩ 1).2.1 (by constructor <;> decide),
   (claim8_view_order ⟨[⟨1, 1, "expense", "A", 1, "2024-10-01"⟩, ⟨2, 1, "expense", "B", 1, "2024-10-11"⟩], [], 3, 1⟩ 7).2.2 (by decide)⟩

/-! ### Digit and zero-padding lemmas (for the report period keys) -/

theorem digitChar_isDigit : ∀ a < 10, (digitChar a).isDigit = true := by decide

theorem charVal_digitChar : ∀ a < 10, charVal (digitChar a) = a := by decide

theorem digitChar_ne_dash : ∀ a < 10, digitChar a ≠ '-' := by decide

theorem digitChar_inj : ∀ a < 10, ∀ b < 10, digitChar a = digitChar b → a = b := by decide

theorem splitDash_no_dash {l : List Char} (h : ∀ c ∈ l, c ≠ '-') :
    splitDash l = [l] := by
  induction l with
  | nil => rfl
  | cons c cs ih =>
    rw [splitDash, if_neg (h c (List.mem_cons_self c cs)),
        ih (fun x hx => h x (List.mem_cons_of_mem _ hx))]

theorem splitDash_append {l₁ l₂ : List Char} (h : ∀ c ∈ l₁, c ≠ '-') :
    splitDash (l₁ ++ '-' :: l₂) = l₁ :: splitDash l₂ := by
  induction l₁ with
  | nil =>
    simp only [List.nil_append]
    rw [splitDash, if_pos rfl]
  | cons c cs ih =>
    rw [List.cons_append, splitDash, if_neg (h c (List.mem_cons_self c cs)),
        ih (fun x hx => h x (List.mem_cons_of_mem _ hx))]

theorem pad2Chars_no_dash (n : Nat) : ∀ c ∈ pad2Chars n, c ≠ '-' := by
  intro c hc
  unfold pad2Chars at hc
  simp only [List.mem_cons, List.not_mem_nil, or_false] at hc
  rcases hc with hc | hc
  · exact hc ▸ digitChar_ne_dash _ (Nat.mod_lt _ (by omega))
  · exact hc ▸ digitChar_ne_dash _ (Nat.mod_lt _ (by omega))

theorem pad4Chars_no_dash (n : Nat) : ∀ c ∈ pad4Chars n, c ≠ '-' := by
  intro c hc
  unfold pad4Chars at hc
  simp only [List.mem_cons, List.not_mem_nil, or_false] at hc
  rcases hc with hc | hc | hc | hc
  · exact hc ▸ digitChar_ne_dash _ (Nat.mod_lt _ (by omega))
  · exact hc ▸ digitChar_ne_dash _ (Nat.mod_lt _ (by omega))
  · exact hc ▸ digitChar_ne_dash _ (Nat.mod_lt _ (by omega))
  · exact hc ▸ digitChar_ne_dash _ (Nat.mod_lt _ (by omega))

theorem allDigits_pad2Chars (n : Nat) : allDigits (pad2Chars n) = true := by
  unfold allDigits pad2Chars
  rw [List.all_eq_true]
  intro c hc
  simp only [List.mem_cons, List.not_mem_nil, or_false] at hc
  rcases hc with hc | hc
  · exact hc ▸ digitChar_isDigit _ (Nat.mod_lt _ (by omega))
  · exact hc ▸ digitChar_isDigit _ (Nat.mod_lt _ (by omega))

theorem allDigits_pad4Chars (n : Nat) : allDigits (pad4Chars n) = true := by
  unfold allDigits pad4Chars
  rw [List.all_eq_true]
  intro c hc
  simp only [List.mem_cons, List.not_mem_nil, or_false] at hc
  rcases hc with hc | hc | hc | hc
  · exact hc ▸ digitChar_isDigit _ (Nat.mod_lt _ (by omega))
  · exact hc ▸ digitChar_isDigit _ (Nat.mod_lt _ (by omega))
  · exact hc ▸ digitChar_isDigit _ (Nat.mod_lt _ (by omega))
  · exact hc ▸ digitChar_isDigit _ (Nat.mod_lt _ (by omega))

theorem digitsVal_pad2Chars {n : Nat} (h : n < 100) : digitsVal (pad2Chars n) = n := by
  unfold digitsVal pad2Chars
  simp only [List.foldl_cons, List.foldl_nil]
  rw [charVal_digitChar _ (Nat.mod_lt _ (by omega)),
      charVal_digitChar _ (Nat.mod_lt _ (by omega))]
  omega

theorem digitsVal_pad4Chars {n : Nat} (h : n < 10000) : digitsVal (pad4Chars n) = n := by
  unfold digitsVal pad4Chars
  simp only [List.foldl_cons, List.foldl_nil]
  rw [charVal_digitChar _ (Nat.mod_lt _ (by omega)),
      charVal_digitChar _ (Nat.mod_lt _ (by omega)),
      charVal_digitChar _ (Nat.mod_lt _ (by omega)),
      charVal_digitChar _ (Nat.mod_lt _ (by omega))]
  omega

theorem pad2Chars_inj {a b : Nat} (ha : a < 100) (hb : b < 100)
    (h : pad2Chars a = pad2Chars b) : a = b := by
  have := congrArg digitsVal h
  rwa [digitsVal_pad2Chars ha, digitsVal_pad2Chars hb] at this

theorem pad4Chars_inj {a b : Nat} (ha : a < 10000) (hb : b < 10000)
    (h : pad4Chars a = pad4Chars b) : a = b := by
  have := congrArg digitsVal h
  rwa [digitsVal_pad4Chars ha, digitsVal_pad4Chars hb] at this

theorem daysInMonth_le_31 (y m : Nat) : daysInMonth y m ≤ 31 := by
  unfold daysInMonth
  split_ifs <;> simp

theorem pad2Chars_length (n : Nat) : (pad2Chars n).length = 2 := rfl

theorem pad4Chars_length (n : Nat) : (pad4Chars n).length = 4 := rfl

/-! ### Zero-padded dates through the SQLite model -/

theorem isoPad_data (y m d : Nat) :
    (isoPad y m d).data = pad4Chars y ++ '-' :: (pad2Chars m ++ '-' :: pad2Chars d) := rfl

theorem splitDash_isoPad (y m d : Nat) :
    splitDash (isoPad y m d).data = [pad4Chars y, pad2Chars m, pad2Chars d] := by
  rw [isoPad_data, splitDash_append (pad4Chars_no_dash y),
      splitDash_append (pad2Chars_no_dash m), splitDash_no_dash (pad2Chars_no_dash d)]

theorem dateValid_isoPad {y m d : Nat} (hy1 : 1 ≤ y) (hy : y < 10000)
    (hm1 : 1 ≤ m) (hm : m ≤ 12) (hd1 : 1 ≤ d) (hd : d ≤ daysInMonth y m) :
    dateValid (isoPad y m d) = true := by
  have hm' : digitsVal (pad2Chars m) = m := digitsVal_pad2Chars (by omega)
  have hd' : digitsVal (pad2Chars d) = d :=
    digitsVal_pad2Chars (by have := daysInMonth_le_31 y m; omega)
  unfold dateValid
  rw [splitDash_isoPad]
  simp only [allDigits_pad2Chars, allDigits_pad4Chars, hm', hd',
    digitsVal_pad4Chars hy, pad2Chars_length, pad4Chars_length,
    Bool.and_eq_true, Bool.or_eq_true, beq_iff_eq, decide_eq_true_eq]
  and_intros <;> trivial

theorem sqliteDateOk_isoPad {y m d : Nat} (hm1 : 1 ≤ m) (hm : m ≤ 12)
    (hd1 : 1 ≤ d) (hd : d ≤ 31) : sqliteDateOk (isoPad y m d) = true := by
  have hm' : digitsVal (pad2Chars m) = m := digitsVal_pad2Chars (by omega)
  have hd' : digitsVal (pad2Chars d) = d := digitsVal_pad2Chars (by omega)
  unfold sqliteDateOk
  rw [splitDash_isoPad]
  simp only [allDigits_pad2Chars, allDigits_pad4Chars, hm', hd',
    pad2Chars_length, pad4Chars_length,
    Bool.and_eq_true, beq_iff_eq, decide_eq_true_eq]
  and_intros <;> trivial

theorem take7_isoPad (y m d : Nat) :
    (isoPad y m d).data.take 7 = pad4Chars y ++ '-' :: pad2Chars m := rfl

theorem take4_isoPad (y m d : Nat) :
    (isoPad y m d).data.take 4 = pad4Chars y := rfl

theorem sqliteYM_isoPad {y m d : Nat} (hm1 : 1 ≤ m) (hm : m ≤ 12)
    (hd1 : 1 ≤ d) (hd : d ≤ 31) :
    sqliteYM (isoPad y m d) = some (String.mk (pad4Chars y ++ '-' :: pad2Chars m)) := by
  unfold sqliteYM
  rw [if_pos (sqliteDateOk_isoPad hm1 hm hd1 hd), take7_isoPad]

theorem sqliteY_isoPad {y m d : Nat} (hm1 : 1 ≤ m) (hm : m ≤ 12)
    (hd1 : 1 ≤ d) (hd : d ≤ 31) :
    sqliteY (isoPad y m d) = some (String.mk (pad4Chars y)) := by
  unfold sqliteY
  rw [if_pos (sqliteDateOk_isoPad hm1 hm hd1 hd), take4_isoPad]

theorem ymKey_eq (t : RefDate) : ymKey t = String.mk (pad4Chars t.y ++ '-' :: pad2Chars t.m) := rfl

theorem ym_string_inj {y m Y M : Nat} (hy : y < 10000) (hY : Y < 10000)
    (hm : m < 100) (hM : M < 100) :
    String.mk (pad4Chars y ++ '-' :: pad2Chars m) =
      String.mk (pad4Chars Y ++ '-' :: pad2Chars M) ↔ y = Y ∧ m = M := by
  constructor
  · intro h
    have hdata : pad4Chars y ++ '-' :: pad2Chars m = pad4Chars Y ++ '-' :: pad2Chars M := by
      injection h
    simp only [pad4Chars, pad2Chars, List.cons_append, List.nil_append,
      List.cons.injEq, and_true] at hdata
    obtain ⟨e1, e2, e3, e4, -, e5, e6⟩ := hdata
    have f1 := digitChar_inj _ (Nat.mod_lt _ (by omega)) _ (Nat.mod_lt _ (by omega)) e1
    have f2 := digitChar_inj _ (Nat.mod_lt _ (by omega)) _ (Nat.mod_lt _ (by omega)) e2
    have f3 := digitChar_inj _ (Nat.mod_lt _ (by omega)) _ (Nat.mod_lt _ (by omega)) e3
    have f4 := digitChar_inj _ (Nat.mod_lt _ (by omega)) _ (Nat.mod_lt _ (by omega)) e4
    have f5 := digitChar_inj _ (Nat.mod_lt _ (by omega)) _ (Nat.mod_lt _ (by omega)) e5
    have f6 := digitChar_inj _ (Nat.mod_lt _ (by omega)) _ (Nat.mod_lt _ (by omega)) e6
    omega
  · rintro ⟨rfl, rfl⟩
    rfl

theorem y_string_inj {y Y : Nat} (hy : y < 10000) (hY : Y < 10000) :
    String.mk (pad4Chars y) = String.mk (pad4Chars Y) ↔ y = Y := by
  constructor
  · intro h
    exact pad4Chars_inj hy hY (by injection h)
  · rintro rfl; rfl

theorem dateYMD_isoPad {y m d : Nat} (hy1 : 1 ≤ y) (hy : y < 10000)
    (hm1 : 1 ≤ m) (hm : m ≤ 12) (hd1 : 1 ≤ d) (hd : d ≤ daysInMonth y m) :
    dateYMD (isoPad y m d) = some (y, m, d) := by
  unfold dateYMD
  rw [if_pos (dateValid_isoPad hy1 hy hm1 hm hd1 hd), splitDash_isoPad]
  simp only [digitsVal_pad4Chars hy, digitsVal_pad2Chars (show m < 100 by omega),
    digitsVal_pad2Chars (show d < 100 by have := daysInMonth_le_31 y m; omega)]

/-! ### Report totals over zero-padded stores -/

/-- Stores in which every date is stored in the zero-padded ISO form the
reference scenario uses (every date reachable through the validation gate
can also arrive non-padded; those are NOT covered here, which is the point
of the C4 counterexample). -/
def DatesPadded (st : Store) : Prop :=
  ∀ t ∈ st.transactions, ∃ y m d, 1 ≤ y ∧ y < 10000 ∧ 1 ≤ m ∧ m ≤ 12 ∧
    1 ≤ d ∧ d ≤ daysInMonth y m ∧ t.date = isoPad y m d

theorem monthly_total_eq (st : Store) (u : Nat) (today : RefDate) (k : String)
    (hpad : DatesPadded st) (hty : today.y < 10000) (htm1 : 1 ≤ today.m)
    (htm2 : today.m ≤ 12) :
    sumAmounts ((st.transactions.filter
        (fun t => t.user == u && sqliteYM t.date == some (ymKey today))).filter
      (fun t => t.kind == k)) = specMonthlyTotal k u today st := by
  unfold specMonthlyTotal
  rw [List.filter_filter]
  congr 1
  apply List.filter_congr
  intro t ht
  obtain ⟨y, m, d, hy1, hy, hm1, hm, hd1, hd, heq⟩ := hpad t ht
  rw [heq, sqliteYM_isoPad hm1 hm hd1 (le_trans hd (daysInMonth_le_31 y m)),
      dateYMD_isoPad hy1 hy hm1 hm hd1 hd]
  rw [Bool.eq_iff_iff]
  simp only [Bool.and_eq_true, beq_iff_eq, Option.some.injEq]
  rw [ymKey_eq, ym_string_inj hy hty (by omega) (by omega)]
  tauto

theorem yearly_total_eq (st : Store) (u : Nat) (today : RefDate) (k : String)
    (hpad : DatesPadded st) (hty : today.y < 10000) :
    sumAmounts ((st.transactions.filter
        (fun t => t.user == u && sqliteY t.date == some (yKey today))).filter
      (fun t => t.kind == k)) = specYearlyTotal k u today st := by
  unfold specYearlyTotal
  rw [List.filter_filter]
  congr 1
  apply List.filter_congr
  intro t ht
  obtain ⟨y, m, d, hy1, hy, hm1, hm, hd1, hd, heq⟩ := hpad t ht
  rw [heq, sqliteY_isoPad hm1 hm hd1 (le_trans hd (daysInMonth_le_31 y m)),
      dateYMD_isoPad hy1 hy hm1 hm hd1 hd]
  rw [Bool.eq_iff_iff]
  simp only [Bool.and_eq_true, beq_iff_eq, Option.some.injEq]
  rw [show yKey today = String.mk (pad4Chars today.y) from rfl, y_string_inj hy hty]
  tauto

/-! ### C4: GenerateReport -/

/-- C4 counterexample: the date 2024-10-5 passes the add_transaction gate
(strptime accepts it) and lies in October 2024, the month of the reference
date 2024-10-11; yet generate_report's monthly totals are 0, because SQLite
strftime('%Y-%m', '2024-10-5') is NULL for the non-padded string, while the
sum the claim prescribes over income transactions whose date falls in the
period is 5.  So the claim's equality fails on this store. -/
theorem claim4_counterexample :
    generateReport 1 "monthly" ⟨2024, 10, 11⟩ ⟨[⟨1, 1, "income", "Salary", 5, "2024-10-5"⟩], [], 2, 1⟩ =
      some ⟨"2024-10", 0, 0, 0⟩ ∧
    specMonthlyTotal "income" 1 ⟨2024, 10, 11⟩ ⟨[⟨1, 1, "income", "Salary", 5, "2024-10-5"⟩], [], 2, 1⟩ = 5 ∧
    dateValid "2024-10-5" = true := by
  refine ⟨?_, ?_, by decide⟩
  · have hkey : ymKey ⟨2024, 10, 11⟩ = "2024-10" := by decide
    have hfil : ([⟨1, 1, "income", "Salary", 5, "2024-10-5"⟩] : List Txn).filter
        (fun t => t.user == 1 && sqliteYM t.date == some "2024-10") = [] := by
      decide
    simp only [generateReport, eq_self_iff_true, if_true, hkey, hfil, List.filter_nil]
    simp [sumAmounts]
  · have hYMD : dateYMD "2024-10-5" = some (2024, 10, 5) := by decide
    unfold specMonthlyTotal
    rw [show (([⟨1, 1, "income", "Salary", 5, "2024-10-5"⟩] : List Txn).filter
      (fun t => t.user == 1 && t.kind == "income" &&
        match dateYMD t.date with
        | some (y, m, _) => y == 2024 && m == 10
        | none => false)) = [⟨1, 1, "income", "Salary", 5, "2024-10-5"⟩] by decide]
    simp [sumAmounts]

/-- C4 as amended: over stores whose transaction dates are all stored in
zero-padded ISO form, generate_report returns for the monthly (resp.
yearly) period the key of the reference date together with totalIncome and
totalExpense equal to the sums of the user's income resp. expense
transaction amounts whose calendar date falls in that period (0 with none),
and savings = totalIncome − totalExpense.  Transactions whose dates were
stored non-padded are silently excluded from the totals, which is what the
counterexample exhibits. -/
theorem claim4_generateReport_padded (st : Store) (u : Nat) (today : RefDate)
    (hpad : DatesPadded st) (hty : today.y < 10000) (htm1 : 1 ≤ today.m)
    (htm2 : today.m ≤ 12) :
    generateReport u "monthly" today st =
      some ⟨ymKey today, specMonthlyTotal "income" u today st,
        specMonthlyTotal "expense" u today st,
        specMonthlyTotal "income" u today st - specMonthlyTotal "expense" u today st⟩ ∧
    generateReport u "yearly" today st =
      some ⟨yKey today, specYearlyTotal "income" u today st,
        specYearlyTotal "expense" u today st,
        specYearlyTotal "income" u today st - specYearlyTotal "expense" u today st⟩ := by
  constructor
  · simp only [generateReport, eq_self_iff_true, if_true]
    rw [monthly_total_eq st u today "income" hpad hty htm1 htm2,
        monthly_total_eq st u today "expense" hpad hty htm1 htm2]
  · simp only [generateReport, eq_self_iff_true, if_true]
    rw [yearly_total_eq st u today "income" hpad hty,
        yearly_total_eq st u today "expense" hpad hty, if_neg (by decide)]

/-- Witness for C4 (amended): the spec scenario — one income 5000 and one
expense 200 in October 2024, zero-padded — reports income 5000, expense
200, savings 4800. -/
theorem claim4_witness :
    generateReport 1 "monthly" ⟨2024, 10, 11⟩ ⟨[⟨1, 1, "income", "Salary", 5000, "2024-10-11"⟩, ⟨2, 1, "expense", "Food", 200, "2024-10-12"⟩], [], 3, 1⟩ =
      some ⟨"2024-10", 5000, 200, 4800⟩ := by
  have h := (claim4_generateReport_padded
    ⟨[⟨1, 1, "income", "Salary", 5000, "2024-10-11"⟩, ⟨2, 1, "expense", "Food", 200, "2024-10-12"⟩], [], 3, 1⟩
    1 ⟨2024, 10, 11⟩ ?_ (by norm_num) (by norm_num) (by norm_num)).1
  · rw [h]
    have h1 : specMonthlyTotal "income" 1 ⟨2024, 10, 11⟩
        ⟨[⟨1, 1, "income", "Salary", 5000, "2024-10-11"⟩, ⟨2, 1, "expense", "Food", 200, "2024-10-12"⟩], [], 3, 1⟩ = 5000 := by
      unfold specMonthlyTotal
      rw [show (([⟨1, 1, "income", "Salary", 5000, "2024-10-11"⟩, ⟨2, 1, "expense", "Food", 200, "2024-10-12"⟩] : List Txn).filter
        (fun t => t.user == 1 && t.kind == "income" &&
          match dateYMD t.date with
          | some (y, m, _) => y == 2024 && m == 10
          | none => false)) = [⟨1, 1, "income", "Salary", 5000, "2024-10-11"⟩] by decide]
      simp [sumAmounts]
    have h2 : specMonthlyTotal "expense" 1 ⟨2024, 10, 11⟩
        ⟨[⟨1, 1, "income", "Salary", 5000, "2024-10-11"⟩, ⟨2, 1, "expense", "Food", 200, "2024-10-12"⟩], [], 3, 1⟩ = 200 := by
      unfold specMonthlyTotal
      rw [show (([⟨1, 1, "income", "Salary", 5000, "2024-10-11"⟩, ⟨2, 1, "expense", "Food", 200, "2024-10-12"⟩] : List Txn).filter
        (fun t => t.user == 1 && t.kind == "expense" &&
          match dateYMD t.date with
          | some (y, m, _) => y == 2024 && m == 10
          | none => false)) = [⟨2, 1, "expense", "Food", 200, "2024-10-12"⟩] by decide]
      simp [sumAmounts]
    rw [h1, h2]
    norm_num
    rfl
  · intro t ht
    simp only [List.mem_cons, List.not_mem_nil, or_false] at ht
    rcases ht with ht | ht
    · exact ⟨2024, 10, 11, by norm_num, by norm_num, by norm_num, by norm_num,
        by norm_num, by decide, by rw [ht]; decide⟩
    · exact ⟨2024, 10, 12, by norm_num, by norm_num, by norm_num, by norm_num,
        by norm_num, by decide, by rw [ht]; decide⟩

end Finance
